import Mathlib

/-!
Verification development for the modeltrack repository
(src/modeltrack/detail.py and src/model-track/container.py).

The Python code is shallowly embedded:

* Python `True` / `False` / `None` status values become `Option Bool`
  (`some true` / `some false` / `none`).
* Python's `hash` is modelled as an injective fingerprint built from
  `Nat.pair`: the hash of a tuple is an injective function of the sequence of
  its elements' hashes, and the hash of a string is an injective function of
  its characters.  Python's concrete mixing functions admit collisions; the
  model idealises them as collision-free.
* `dict` objects become insertion-ordered association lists; `dict` key
  deduplication and in-place overwrite-keeps-position assignment are modelled
  explicitly.
* Mutable `Part` / `Assembly` / `Step` objects live in an explicit heap
  (`Heap`, a list of objects indexed by allocation order); attribute mutation
  is explicit state passing, and fallible operations return `Except PyErr`.
-/

deriving instance DecidableEq for Except

/-- Tri-state paint/decal status: Python `True`, `False`, `None`. -/
abbrev Status := Option Bool

/-- Python exception kinds raised by the embedded code.  `recursionLimit`
models Python's RecursionError (reached only on cyclic object graphs). -/
inductive PyErr where
  | typeError
  | valueError
  | indexError
  | recursionLimit
  deriving Repr, DecidableEq

/-- detail.PaintType: enumeration with members SPRAY and BRUSH. -/
inductive PaintType where
  | spray
  | brush
  deriving Repr, DecidableEq

/-- detail.Color value content: brand, code and name strings.  The class
invariant (code and name not both empty) is established by `mkColor`. -/
structure Color where
  brand : String
  code : String
  name : String
  deriving Repr, DecidableEq

/-- detail.Paint: a Color together with a PaintType. -/
structure Paint where
  color : Color
  ptype : PaintType
  deriving Repr, DecidableEq

/-- detail.Decal: an identifier string. -/
structure Decal where
  id : String
  deriving Repr, DecidableEq

/-! ## The hash model

Python object hashes are modelled as natural numbers produced by an injective
pairing.  `natCombine` plays the role of the hash of a tuple: it is an
injective function of the list of component hashes. -/

/-- Injective fold of a list of hash values into a single hash value,
modelling Python's tuple hash (a function of the sequence of the elements'
hashes). -/
def natCombine : List Nat → Nat
  | [] => 0
  | h :: t => Nat.pair h (natCombine t) + 1

/-- Hash of a Python string, modelled injectively from its characters. -/
def strHash (s : String) : Nat :=
  natCombine (s.data.map Char.toNat)

/-- Hash of a PaintType enum member.  Enum members are singletons hashed by
identity; the model assigns the two members distinct fingerprints. -/
def ptypeHash : PaintType → Nat
  | .spray => 0
  | .brush => 1

/-- Color.__hash__: hash of the tuple (brand, code, name). -/
def colorHash (c : Color) : Nat :=
  natCombine [strHash c.brand, strHash c.code, strHash c.name]

/-- Paint.__hash__: hash of the tuple (color, type). -/
def paintHash (p : Paint) : Nat :=
  natCombine [colorHash p.color, ptypeHash p.ptype]

/-- Decal.__hash__: hash of the tuple (class name, id). -/
def decalHash (d : Decal) : Nat :=
  natCombine [strHash "Decal", strHash d.id]

/-- HashMap.__hash__ : hash of the tuple whose first component is the class
name and whose remaining components are the map's keys sorted by their own
hash values.  Because the tuple hash is a function of the sequence of element
hashes, and sorting the keys by hash makes that sequence the sorted list of
key hashes (equal-hash keys contribute equal entries, so tie order is
irrelevant), the composite is modelled directly on the list of key hashes. -/
def pyMapHash (className : String) (keyHashes : List Nat) : Nat :=
  natCombine (strHash className :: List.insertionSort (· ≤ ·) keyHashes)

/-- Hash of a Part's paint map, a PaintMap instance (class name "PaintMap").
Values play no role. -/
def paintMapHash (m : List (Paint × Status)) : Nat :=
  pyMapHash "PaintMap" (m.map fun kv => paintHash kv.1)

/-- Hash of a Part's decal map, a plain HashMap instance (class name
"HashMap").  Values play no role. -/
def decalMapHash (m : List (Decal × Status)) : Nat :=
  pyMapHash "HashMap" (m.map fun kv => decalHash kv.1)

/-! ## Association-list dictionary primitives -/

/-- Python dict.get with default None: first binding of the key, or none. -/
def assocFind? [BEq κ] (m : List (κ × β)) (k : κ) : Option β :=
  match m.find? fun kv => kv.1 == k with
  | some kv => some kv.2
  | none => none

/-- Python dict assignment d[k] = v: overwrite in place if the key is
present (keeping its position), otherwise append the new binding. -/
def assocSet [BEq κ] (m : List (κ × β)) (k : κ) (v : β) : List (κ × β) :=
  if m.any fun kv => kv.1 == k then
    m.map fun kv => if kv.1 == k then (k, v) else kv
  else
    m ++ [(k, v)]

/-- Keys of an association-list dict. -/
def assocKeys (m : List (κ × β)) : List κ :=
  m.map Prod.fst

/-! ## Part state and its pure queries -/

/-- Object identifier: index of an object in the heap. -/
abbrev OID := Nat

/-- The Part-level slots shared by Part, Assembly and Step objects:
_id, _paints, _decals, _master. -/
structure PartData where
  id : String
  paints : List (Paint × Status)
  decals : List (Decal × Status)
  master : Option OID
  deriving Repr, DecidableEq

/-- Part.isPainted: iterates the paint map's values and returns False as soon
as a value is the object False; None values do not trigger the early
return. -/
def PartData.isPainted (d : PartData) : Bool :=
  d.paints.all fun kv => !(kv.2 == some false)

/-- Part.isDecaled: the same loop over the decal map. -/
def PartData.isDecaled (d : PartData) : Bool :=
  d.decals.all fun kv => !(kv.2 == some false)

/-- Argument domain for checkPaint/checkDecal: the caller may pass a Paint or
a Decal; the isinstance guard rejects the wrong one. -/
inductive DomArg where
  | paintArg (p : Paint)
  | decalArg (d : Decal)
  deriving Repr, DecidableEq

/-- Part.checkPaint: TypeError unless the argument is a Paint, then
self._paints.get(paint), whose default for an absent key is None. -/
def PartData.checkPaint (d : PartData) (x : DomArg) : Except PyErr Status :=
  match x with
  | .paintArg p => .ok ((assocFind? d.paints p).getD none)
  | .decalArg _ => .error .typeError

/-- Part.checkDecal: TypeError unless the argument is a Decal, then
self._decals.get(decal). -/
def PartData.checkDecal (d : PartData) (x : DomArg) : Except PyErr Status :=
  match x with
  | .decalArg dec => .ok ((assocFind? d.decals dec).getD none)
  | .paintArg _ => .error .typeError

/-! ## PaintMap.__setitem__ and the ColorMix constructor -/

/-- A key passed to PaintMap.__setitem__, tagged with its concrete Python
type: an object whose type is exactly Color, a ColorMix instance (which is-a
Color and carries its computed Color content), or a Paint. -/
inductive PMKey where
  | colorKey (c : Color)
  | colorMixKey (c : Color)
  | paintKey (p : Paint)
  deriving Repr, DecidableEq

/-- A value passed to PaintMap.__setitem__.  Strings stand for arbitrary
non-status objects: Python's membership test value in (True, False, None)
compares with ==, and a string equals none of the three. -/
inductive PyVal where
  | pyBool (b : Bool)
  | pyNone
  | pyStr (s : String)
  deriving Repr, DecidableEq

/-- Python truth of value in (True, False, None). -/
def PyVal.isTriState : PyVal → Bool
  | .pyBool _ => true
  | .pyNone => true
  | .pyStr _ => false

/-- PaintMap.__setitem__: raises TypeError if type(key) == Color (an exact
type test, so ColorMix instances pass), then TypeError if the value is not
True, False or None, otherwise stores the binding via dict.__setitem__. -/
def paintMapSet (m : List (PMKey × PyVal)) (key : PMKey) (value : PyVal) :
    Except PyErr (List (PMKey × PyVal)) :=
  match key with
  | .colorKey _ => .error .typeError
  | _ =>
    if !value.isTriState then .error .typeError
    else .ok (assocSet m key value)

/-- Color.__init__: brand, code and name must be strings (enforced by the
embedding's types); code and name must not both be empty. -/
def mkColor (brand code name : String) : Except PyErr Color :=
  if code = "" && name = "" then .error .valueError
  else .ok ⟨brand, code, name⟩

/-- ColorMix._checkArgs: computes the running brand (a string while all
brands agree and the first brand is truthy, Python False — modelled none —
once a mismatch is seen) and the handle string of each component, raising
ValueError when a component Color has neither code nor name.  Indexing
colors[0] of an empty sequence raises IndexError. -/
def mixCheckArgs (colors : List (Color × Int)) :
    Except PyErr (Option String × String) := do
  match colors with
  | [] => .error .indexError
  | c0 :: _ =>
    let start : Option String := some c0.1.brand
    let folded ← colors.foldlM
      (fun (acc : Option String × List String) c => do
        let brand :=
          match acc.1 with
          | some b => if b ≠ "" && c.1.brand ≠ b then none else some b
          | none => none
        if c.1.code ≠ "" then
          pure (brand, acc.2 ++ [c.1.code ++ ":" ++ toString c.2])
        else if c.1.name ≠ "" then
          pure (brand, acc.2 ++ [c.1.name ++ ":" ++ toString c.2])
        else
          .error .valueError)
      (start, [])
    pure (folded.1, String.intercalate " + " folded.2)

/-- ColorMix.__init__: runs _checkArgs, replaces a brand of False by
"Mixture", and delegates to Color.__init__ with the computed code and the
given name.  The result is a ColorMix instance whose Color content is the
returned value. -/
def mkColorMix (colors : List (Color × Int)) (name : String) :
    Except PyErr Color := do
  let (brand, code) ← mixCheckArgs colors
  mkColor (brand.getD "Mixture") code name

/-! ## Sample domain values used in concrete runs -/

/-- A sample color with a code. -/
def cRed : Color := ⟨"T", "01", ""⟩

/-- A second sample color. -/
def cBlue : Color := ⟨"T", "02", ""⟩

/-- Spray paint of the first color. -/
def pA : Paint := ⟨cRed, .spray⟩

/-- Brush paint of the second color. -/
def pB : Paint := ⟨cBlue, .brush⟩

/-- A sample decal. -/
def dA : Decal := ⟨"d1"⟩

/-! ## Helper lemmas -/

/-- Sorting with insertionSort is invariant under permutation of the input
(for the total, transitive, antisymmetric order on Nat). -/
theorem insertionSort_perm_invariant {l1 l2 : List Nat} (h : l1.Perm l2) :
    List.insertionSort (· ≤ ·) l1 = List.insertionSort (· ≤ ·) l2 :=
  List.eq_of_perm_of_sorted
    ((List.perm_insertionSort _ l1).trans (h.trans (List.perm_insertionSort _ l2).symm))
    (List.sorted_insertionSort _ l1) (List.sorted_insertionSort _ l2)

/-- natCombine on a nonempty list determines its head. -/
theorem natCombine_cons_inj {a b : Nat} {t u : List Nat}
    (h : natCombine (a :: t) = natCombine (b :: u)) : a = b := by
  simp only [natCombine] at h
  exact (Nat.pair_eq_pair.mp (Nat.succ_injective h)).1

/-! ## C8: map hashing -/

/-- C8: a map's hash is invariant under reordering of its key set and
independent of its values (the two sides carry unrelated values), for both
the PaintMap used for paints and the plain HashMap used for decals; and the
two structurally distinct map types never produce the same hash on
identical key-hash sets. -/
theorem c8_map_hash_key_set_salted :
    (∀ m1 m2 : List (Paint × Status), (m1.map Prod.fst).Perm (m2.map Prod.fst) →
      paintMapHash m1 = paintMapHash m2) ∧
    (∀ m1 m2 : List (Decal × Status), (m1.map Prod.fst).Perm (m2.map Prod.fst) →
      decalMapHash m1 = decalMapHash m2) ∧
    (∀ keyHashes : List Nat, pyMapHash "PaintMap" keyHashes ≠ pyMapHash "HashMap" keyHashes) := by
  refine ⟨?_, ?_, ?_⟩
  · intro m1 m2 h
    have hperm : ((m1.map Prod.fst).map paintHash).Perm ((m2.map Prod.fst).map paintHash) :=
      h.map paintHash
    simp only [List.map_map, Function.comp_def] at hperm
    simp only [paintMapHash, pyMapHash]
    rw [insertionSort_perm_invariant hperm]
  · intro m1 m2 h
    have hperm : ((m1.map Prod.fst).map decalHash).Perm ((m2.map Prod.fst).map decalHash) :=
      h.map decalHash
    simp only [List.map_map, Function.comp_def] at hperm
    simp only [decalMapHash, pyMapHash]
    rw [insertionSort_perm_invariant hperm]
  · intro keyHashes h
    exact absurd (natCombine_cons_inj h) (by decide)

/-- Witness for C8: concrete PaintMaps with permuted keys and different
values hash identically. -/
theorem c8_witness :
    paintMapHash [(pA, some false), (pB, some true)] =
      paintMapHash [(pB, none), (pA, some false)] :=
  c8_map_hash_key_set_salted.1 _ _ (by decide)

/-! ## C3: isPainted / isDecaled -/

/-- C3 counterexample: a Part whose single paint status is None (null) is
reported painted, refuting the claim that only a status of exactly True
counts as complete. -/
theorem c3_cex_null_status_counts_painted :
    PartData.isPainted ⟨"w", [(pA, none)], [], none⟩ = true ∧
    ¬ (∀ kv ∈ ([(pA, (none : Status))] : List (Paint × Status)), kv.2 = some true) := by
  constructor
  · decide
  · decide

/-- C3 amended: isPainted is true iff no tracked paint status is exactly
False — an empty map is vacuously painted, a False status is incomplete, and
a None (null) status counts as complete; isDecaled behaves identically over
the decal map. -/
theorem c3_isPainted_iff_no_false (d : PartData) :
    (d.isPainted = true ↔ ∀ kv ∈ d.paints, kv.2 ≠ some false) ∧
    (d.isDecaled = true ↔ ∀ kv ∈ d.decals, kv.2 ≠ some false) := by
  constructor
  · simp [PartData.isPainted, List.all_eq_true]
  · simp [PartData.isDecaled, List.all_eq_true]

/-- Witness for C3's amended theorem at a concrete Part with one null and
one true status. -/
theorem c3_witness :
    PartData.isPainted ⟨"w", [(pA, none), (pB, some true)], [], none⟩ = true :=
  (c3_isPainted_iff_no_false ⟨"w", [(pA, none), (pB, some true)], [], none⟩).1.mpr
    (by decide)

/-- In an association list with no duplicate keys, find? locates exactly the
unique binding of a present key. -/
theorem find_assoc_of_nodup [DecidableEq κ] {m : List (κ × β)} {k : κ} {v : β}
    (hnd : (m.map Prod.fst).Nodup) (hm : (k, v) ∈ m) :
    m.find? (fun kv => kv.1 == k) = some (k, v) := by
  induction m with
  | nil => cases hm
  | cons kv t ih =>
    rcases List.mem_cons.mp hm with h | h
    · subst h
      simp [List.find?_cons]
    · have hne : kv.1 ≠ k := by
        intro he
        have hkmem : k ∈ t.map Prod.fst := List.mem_map_of_mem Prod.fst h
        rw [List.map_cons, List.nodup_cons] at hnd
        exact hnd.1 (he ▸ hkmem)
      rw [List.map_cons, List.nodup_cons] at hnd
      have hbeq : (kv.1 == k) = false := beq_eq_false_iff_ne.mpr hne
      simp only [List.find?_cons, hbeq]
      exact ih hnd.2 h

/-! ## C9: checkPaint / checkDecal -/

/-- C9 counterexample: on a Part tracking paint pA with status None, checkPaint
returns the same value (ok None) for the tracked-null key pA and for the
untracked key pB, so the absent result is not distinguishable from the null
status. -/
theorem c9_cex_absent_equals_null :
    PartData.checkPaint ⟨"w", [(pA, none)], [], none⟩ (.paintArg pA) = .ok none ∧
    PartData.checkPaint ⟨"w", [(pA, none)], [], none⟩ (.paintArg pB) = .ok none ∧
    (pA, (none : Status)) ∈ [(pA, (none : Status))] ∧
    (∀ kv ∈ ([(pA, (none : Status))] : List (Paint × Status)), kv.1 ≠ pB) := by
  refine ⟨by decide, by decide, by decide, by decide⟩

/-- C9 amended: checkPaint returns the tracked status of a tracked paint
(under key uniqueness), returns None — the same value as a tracked null
status — when the paint is untracked, and raises TypeError when the argument
is a Decal; checkDecal behaves identically with the roles swapped. -/
theorem c9_check_status_or_null (d : PartData) :
    (∀ p s, (d.paints.map Prod.fst).Nodup → (p, s) ∈ d.paints →
      d.checkPaint (.paintArg p) = .ok s) ∧
    (∀ p, (∀ kv ∈ d.paints, kv.1 ≠ p) → d.checkPaint (.paintArg p) = .ok none) ∧
    (∀ dec, d.checkPaint (.decalArg dec) = .error .typeError) ∧
    (∀ dec s, (d.decals.map Prod.fst).Nodup → (dec, s) ∈ d.decals →
      d.checkDecal (.decalArg dec) = .ok s) ∧
    (∀ dec, (∀ kv ∈ d.decals, kv.1 ≠ dec) → d.checkDecal (.decalArg dec) = .ok none) ∧
    (∀ p, d.checkDecal (.paintArg p) = .error .typeError) := by
  refine ⟨?_, ?_, fun _ => rfl, ?_, ?_, fun _ => rfl⟩
  · intro p s hnd hm
    simp only [PartData.checkPaint, assocFind?]
    rw [find_assoc_of_nodup hnd hm]
    rfl
  · intro p hnone
    simp only [PartData.checkPaint, assocFind?]
    have hfind : d.paints.find? (fun kv => kv.1 == p) = none := by
      rw [List.find?_eq_none]
      intro kv hkv
      simpa using hnone kv hkv
    rw [hfind]
    rfl
  · intro dec s hnd hm
    simp only [PartData.checkDecal, assocFind?]
    rw [find_assoc_of_nodup hnd hm]
    rfl
  · intro dec hnone
    simp only [PartData.checkDecal, assocFind?]
    have hfind : d.decals.find? (fun kv => kv.1 == dec) = none := by
      rw [List.find?_eq_none]
      intro kv hkv
      simpa using hnone kv hkv
    rw [hfind]
    rfl

/-- Witness for C9's amended theorem at a concrete Part. -/
theorem c9_witness :
    PartData.checkPaint ⟨"w", [(pA, some true)], [], none⟩ (.paintArg pA) = .ok (some true) :=
  (c9_check_status_or_null ⟨"w", [(pA, some true)], [], none⟩).1 pA (some true)
    (by decide) (by decide)

/-! ## C5: PaintMap.__setitem__ -/

/-- C5 counterexample: a ColorMix instance is constructible from two coded
colors, and using it as a PaintMap key does not raise — the exact-type guard
only rejects keys whose type is exactly Color. -/
theorem c5_cex_colorMix_key_accepted :
    mkColorMix [(cRed, 1), (cBlue, 2)] "" = .ok ⟨"T", "01:1 + 02:2", ""⟩ ∧
    paintMapSet [] (.colorMixKey ⟨"T", "01:1 + 02:2", ""⟩) (.pyBool false) =
      .ok [(.colorMixKey ⟨"T", "01:1 + 02:2", ""⟩, .pyBool false)] := by
  constructor
  · decide
  · decide

/-- C5 amended: set raises TypeError exactly when the key's concrete type is
Color (ColorMix and Paint keys are accepted) or when the value is outside
the tri-state set; accepted combinations store the binding. -/
theorem c5_set_rejects_exact_color_only :
    (∀ (m : List (PMKey × PyVal)) c v, paintMapSet m (.colorKey c) v = .error .typeError) ∧
    (∀ (m : List (PMKey × PyVal)) c b,
      paintMapSet m (.colorMixKey c) (.pyBool b) = .ok (assocSet m (.colorMixKey c) (.pyBool b))) ∧
    (∀ (m : List (PMKey × PyVal)) c,
      paintMapSet m (.colorMixKey c) .pyNone = .ok (assocSet m (.colorMixKey c) .pyNone)) ∧
    (∀ (m : List (PMKey × PyVal)) p b,
      paintMapSet m (.paintKey p) (.pyBool b) = .ok (assocSet m (.paintKey p) (.pyBool b))) ∧
    (∀ (m : List (PMKey × PyVal)) p,
      paintMapSet m (.paintKey p) .pyNone = .ok (assocSet m (.paintKey p) .pyNone)) ∧
    (∀ (m : List (PMKey × PyVal)) k s, paintMapSet m k (.pyStr s) = .error .typeError) := by
  refine ⟨fun _ _ _ => rfl, fun _ _ _ => rfl, fun _ _ => rfl, fun _ _ _ => rfl, fun _ _ => rfl, ?_⟩
  intro m k s
  cases k <;> rfl

/-! ## C10: equality decided by hash

Part.__eq__, Assembly.__eq__ and Step.__eq__ each return the comparison of
the two objects' hash values when the type guard passes (type(other) == Part
for Part; isinstance(other, Assembly) for Assembly; isinstance(other, Step)
for Step) and NotImplemented otherwise, in which case Python falls back to
the reflected operation and finally to identity.  `PTree` is the value view
of an object used by hashing and equality (hash reads only _id, _paints,
_decals and, for assemblies, the member tuple; _master and, for steps,
_previous are never read). -/

/-- Value view of a Part / Assembly / Step object for hashing and
equality. -/
inductive PTree where
  | prt (id : String) (paints : List (Paint × Status)) (decals : List (Decal × Status))
      (master : Option Nat)
  | asm (id : String) (paints : List (Paint × Status)) (decals : List (Decal × Status))
      (master : Option Nat) (members : List PTree)
  | stp (id : String) (paints : List (Paint × Status)) (decals : List (Decal × Status))
      (master : Option Nat) (members : List PTree) (previous : Option Nat)

/-- Master slot of the value view (never read by hashing or equality). -/
def PTree.masterOf : PTree → Option Nat
  | .prt _ _ _ m => m
  | .asm _ _ _ m _ => m
  | .stp _ _ _ m _ _ => m

/-- Paint map of the value view. -/
def PTree.paintsOf : PTree → List (Paint × Status)
  | .prt _ ps _ _ => ps
  | .asm _ ps _ _ _ => ps
  | .stp _ ps _ _ _ _ => ps

/-- Part.__hash__: hash of the tuple (_id, _paints, _decals). -/
def partLevelHash (id : String) (paints : List (Paint × Status))
    (decals : List (Decal × Status)) : Nat :=
  natCombine [strHash id, paintMapHash paints, decalMapHash decals]

mutual

/-- The Python hash of an object: Part.__hash__ for parts,
Assembly.__hash__ = hash((Part hash, tuple(_parts))) for assemblies, and
Step.__hash__ = hash((class name, Assembly hash)) for steps. -/
def PTree.hashv : PTree → Nat
  | .prt id paints decals _ => partLevelHash id paints decals
  | .asm id paints decals _ members =>
    natCombine [partLevelHash id paints decals, natCombine (PTree.hashvList members)]
  | .stp id paints decals _ members _ =>
    natCombine [strHash "Step",
      natCombine [partLevelHash id paints decals, natCombine (PTree.hashvList members)]]

/-- Hashes of a member tuple, in order. -/
def PTree.hashvList : List PTree → List Nat
  | [] => []
  | t :: ts => PTree.hashv t :: PTree.hashvList ts

end

/-- Python == between two of these objects.  Same-kind comparisons compare
hash values.  Assembly-vs-Step comparisons also compare hash values (one of
the two __eq__ methods accepts via isinstance(_, Assembly)).  Part-vs-other
comparisons: both __eq__ methods return NotImplemented and Python falls back
to identity, false for the distinct objects a value comparison stands
for. -/
def PTree.pyEq (a b : PTree) : Bool :=
  match a, b with
  | .prt .., .prt .. => a.hashv == b.hashv
  | .asm .., .asm .. => a.hashv == b.hashv
  | .asm .., .stp .. => a.hashv == b.hashv
  | .stp .., .asm .. => a.hashv == b.hashv
  | .stp .., .stp .. => a.hashv == b.hashv
  | _, _ => false

/-- C10: for two objects of the same kind, == is true exactly when the hash
values coincide; consequently two Parts with identical id and paint/decal
keys but different tracked status values and different masters compare
equal, and likewise two Steps differing in master, status values and
previous link. -/
theorem c10_eq_iff_hash_eq :
    (∀ i1 ps1 ds1 m1 i2 ps2 ds2 m2,
      PTree.pyEq (.prt i1 ps1 ds1 m1) (.prt i2 ps2 ds2 m2) = true ↔
        PTree.hashv (.prt i1 ps1 ds1 m1) = PTree.hashv (.prt i2 ps2 ds2 m2)) ∧
    (∀ i1 ps1 ds1 m1 mem1 i2 ps2 ds2 m2 mem2,
      PTree.pyEq (.asm i1 ps1 ds1 m1 mem1) (.asm i2 ps2 ds2 m2 mem2) = true ↔
        PTree.hashv (.asm i1 ps1 ds1 m1 mem1) = PTree.hashv (.asm i2 ps2 ds2 m2 mem2)) ∧
    (∀ i1 ps1 ds1 m1 mem1 pv1 i2 ps2 ds2 m2 mem2 pv2,
      PTree.pyEq (.stp i1 ps1 ds1 m1 mem1 pv1) (.stp i2 ps2 ds2 m2 mem2 pv2) = true ↔
        PTree.hashv (.stp i1 ps1 ds1 m1 mem1 pv1) = PTree.hashv (.stp i2 ps2 ds2 m2 mem2 pv2)) ∧
    (PTree.pyEq (.prt "a" [(pA, some true)] [(dA, some false)] none)
        (.prt "a" [(pA, some false)] [(dA, none)] (some 7)) = true) ∧
    (PTree.masterOf (.prt "a" [(pA, some true)] [(dA, some false)] none) ≠
        PTree.masterOf (.prt "a" [(pA, some false)] [(dA, none)] (some 7)) ∧
      PTree.paintsOf (.prt "a" [(pA, some true)] [(dA, some false)] none) ≠
        PTree.paintsOf (.prt "a" [(pA, some false)] [(dA, none)] (some 7))) ∧
    (PTree.pyEq (.stp "s" [] [] none [] none)
        (.stp "s" [] [] (some 1) [] (some 3)) = true) := by
  refine ⟨?_, ?_, ?_, by decide, by decide, by decide⟩
  · intro i1 ps1 ds1 m1 i2 ps2 ds2 m2
    simp [PTree.pyEq]
  · intro i1 ps1 ds1 m1 mem1 i2 ps2 ds2 m2 mem2
    simp [PTree.pyEq]
  · intro i1 ps1 ds1 m1 mem1 pv1 i2 ps2 ds2 m2 mem2 pv2
    simp [PTree.pyEq]

/-! ## The heap model

Mutable objects live in a heap indexed by allocation order.  Python list
attributes (_parts, _assemblies) are stored as immutable lists of member
OIDs: the source never mutates one of these lists in place (attach rebinds
self._parts to a freshly built list), so value lists are observationally
equivalent to aliased list objects for this code. -/

/-- A heap object: a Part, an Assembly (Part slots plus _parts and
_assemblies) or a Step (Assembly slots plus _previous). -/
inductive Obj where
  | part (d : PartData)
  | assembly (d : PartData) (parts : List OID) (assemblies : List OID)
  | step (d : PartData) (parts : List OID) (assemblies : List OID) (previous : Option OID)
  deriving Repr, DecidableEq

/-- The heap: object i is the i-th allocation. -/
abbrev Heap := List Obj

/-- The Part-level slots of any object. -/
def Obj.dataOf : Obj → PartData
  | .part d => d
  | .assembly d _ _ => d
  | .step d _ _ _ => d

/-- Replace the Part-level slots of an object. -/
def Obj.withData : Obj → PartData → Obj
  | .part _, d => .part d
  | .assembly _ pl al, d => .assembly d pl al
  | .step _ pl al pv, d => .step d pl al pv

/-- isinstance(o, Step). -/
def Obj.isStepKind : Obj → Bool
  | .step _ _ _ _ => true
  | _ => false

/-- The _parts slot of an Assembly or Step (empty for a bare Part). -/
def Obj.membersOf : Obj → List OID
  | .part _ => []
  | .assembly _ pl _ => pl
  | .step _ pl _ _ => pl

/-- The _assemblies slot of an Assembly or Step (empty for a bare Part). -/
def Obj.assembliesOf : Obj → List OID
  | .part _ => []
  | .assembly _ _ al => al
  | .step _ _ al _ => al

/-- Dereference an OID.  A dangling OID cannot arise from the modelled API;
the error case keeps the function total. -/
def getObj (h : Heap) (oid : OID) : Except PyErr Obj :=
  match h[oid]? with
  | some o => .ok o
  | none => .error .indexError

/-- Allocate a new object, returning its OID. -/
def alloc (h : Heap) (o : Obj) : Heap × OID :=
  (h ++ [o], h.length)

/-- dict(zip(keys, (False,)*len(keys))): each key bound to False, duplicate
keys collapsing onto the first occurrence. -/
def zipFalse [BEq κ] (ks : List κ) : List (κ × Status) :=
  ks.foldl (fun acc k => if acc.any fun kv => kv.1 == k then acc else acc ++ [(k, some false)]) []

/-- Python set union, modelled as an insertion-ordered deduplicating
extension (set iteration order is unspecified in Python; no modelled
observation depends on it beyond membership). -/
def dedupUnion [BEq κ] (a b : List κ) : List κ :=
  b.foldl (fun acc k => if acc.any fun x => x == k then acc else acc ++ [k]) a

/-- Part.__init__ with an id, a list of paints and a list of decals: paint
and decal maps seeded to False, master None.  Argument type checks are
enforced by the embedding's types. -/
def mkPart (h : Heap) (id : String) (paints : List Paint) (decals : List Decal) : Heap × OID :=
  alloc h (.part ⟨id, zipFalse paints, zipFalse decals, none⟩)

/-- Assembly._parseParts: partition the members into the flat part list and
the assembly sublist while accumulating the union of the members' paint and
decal keys; TypeError when a member's type is neither exactly Part nor
exactly Assembly (in particular for a Step object). -/
def parseParts (h : Heap) (parts : List OID) :
    Except PyErr (List OID × List OID × List Paint × List Decal) :=
  parts.foldlM
    (fun acc p => do
      let (pl, al, ps, ds) := acc
      let obj ← getObj h p
      match obj with
      | .part d =>
        pure (pl ++ [p], al, dedupUnion ps (d.paints.map Prod.fst),
          dedupUnion ds (d.decals.map Prod.fst))
      | .assembly d _ _ =>
        pure (pl ++ [p], al ++ [p], dedupUnion ps (d.paints.map Prod.fst),
          dedupUnion ds (d.decals.map Prod.fst))
      | .step _ _ _ _ => .error .typeError)
    ([], [], [], [])

/-- A parts argument: a single Part/Assembly or a sequence of them. -/
inductive PartsArg where
  | one (p : OID)
  | many (ps : List OID)
  deriving Repr, DecidableEq

/-- The wrapping step shared by Assembly.__init__ and Assembly.attach: a
single Part or Assembly becomes a one-element tuple; any other single object
fails the Sequence test with a TypeError. -/
def normalizeArg (h : Heap) (parts : PartsArg) : Except PyErr (List OID) := do
  match parts with
  | .one p =>
    let obj ← getObj h p
    match obj with
    | .part _ => pure [p]
    | .assembly _ _ _ => pure [p]
    | .step _ _ _ _ => .error .typeError
  | .many ps => pure ps

/-- Assembly.__init__: master None, parse the members, then Part.__init__
with the id and the unions of the members' paint/decal keys. -/
def mkAssembly (h : Heap) (id : String) (parts : PartsArg) : Except PyErr (Heap × OID) := do
  let lst ← normalizeArg h parts
  let (pl, al, ps, ds) ← parseParts h lst
  pure (alloc h (.assembly ⟨id, zipFalse ps, zipFalse ds, none⟩ pl al))

/-- Part.master setter: the value must be a Step; a single assignment
succeeds, a second raises ValueError. -/
def setMasterPart (h : Heap) (oid : OID) (v : OID) : Except PyErr Heap := do
  let vObj ← getObj h v
  if !vObj.isStepKind then .error .typeError
  else
    let obj ← getObj h oid
    if obj.dataOf.master = none then
      pure (h.set oid (obj.withData {obj.dataOf with master := some v}))
    else .error .valueError

/-- The master setter dispatched on the object's type: Part's single
assignment setter for bare Parts; Assembly's setter (stamp self when unset,
then stamp every direct member whose master is unset, recursing into member
assemblies, and raise ValueError when nothing changed) for Assemblies and
Steps.  Fuel bounds the recursion depth; exhaustion models Python's
RecursionError on cyclic graphs and never occurs in the runs below. -/
def setMasterObj : Nat → Heap → OID → OID → Except PyErr Heap
  | 0, _, _, _ => .error .recursionLimit
  | fuel + 1, h, oid, v => do
    let obj ← getObj h oid
    match obj with
    | .part _ => setMasterPart h oid v
    | _ =>
      let vObj ← getObj h v
      if !vObj.isStepKind then .error .typeError
      else
        let d := obj.dataOf
        let first :=
          if d.master = none then
            (h.set oid (obj.withData {d with master := some v}), true)
          else (h, false)
        let res ← obj.membersOf.foldlM
          (fun (acc : Heap × Bool) p => do
            let pObj ← getObj acc.1 p
            if pObj.dataOf.master = none then do
              let h2 ← setMasterObj fuel acc.1 p v
              pure (h2, true)
            else pure acc)
          first
        if res.2 then pure res.1 else .error .valueError

/-- Assembly.attach: reset _master to None (this happens before the argument
checks), normalize and parse the new members, rebind _parts and _assemblies
to extended copies, and fold the new paint/decal keys into the status maps
without overwriting present keys.  Called on a bare Part the attribute does
not exist (modelled as a TypeError; never reached below). -/
def attach (h : Heap) (oid : OID) (parts : PartsArg) : Except PyErr Heap := do
  let obj ← getObj h oid
  let obj := obj.withData {obj.dataOf with master := none}
  let h := h.set oid obj
  let lst ← normalizeArg h parts
  let (pl, al, ps, ds) ← parseParts h lst
  match obj with
  | .part _ => .error .typeError
  | .assembly d mp ma =>
    let newPaints := ps.foldl
      (fun acc p => if acc.any fun kv => kv.1 == p then acc else acc ++ [(p, some false)])
      d.paints
    let newDecals := ds.foldl
      (fun acc dec => if acc.any fun kv => kv.1 == dec then acc else acc ++ [(dec, some false)])
      d.decals
    pure (h.set oid (.assembly {d with paints := newPaints, decals := newDecals}
      (mp ++ pl) (ma ++ al)))
  | .step d mp ma pv =>
    let newPaints := ps.foldl
      (fun acc p => if acc.any fun kv => kv.1 == p then acc else acc ++ [(p, some false)])
      d.paints
    let newDecals := ds.foldl
      (fun acc dec => if acc.any fun kv => kv.1 == dec then acc else acc ++ [(dec, some false)])
      d.decals
    pure (h.set oid (.step {d with paints := newPaints, decals := newDecals}
      (mp ++ pl) (ma ++ al) pv))

/-- Step.__init__: previous must be None or a Step; the object is allocated
before its body runs (member stamping references self).  A bare Part member
is stamped and stored as-is; an Assembly member is shallow-copied (the copy
shares the member OIDs) — after stamping for a single Assembly argument,
before stamping inside the member loop — and the copy is stored.  A Step (or
any other object) in the member position raises TypeError.  Construction
ends by running Assembly.__init__ on the gathered members. -/
def mkStep (fuel : Nat) (h : Heap) (name : String) (parts : PartsArg) (previous : Option OID) :
    Except PyErr (Heap × OID) := do
  match previous with
  | some pv =>
    let pvObj ← getObj h pv
    if !pvObj.isStepKind then .error .typeError else pure ()
  | none => pure ()
  let stepOid := h.length
  let h := h ++ [Obj.step ⟨name, [], [], none⟩ [] [] previous]
  let (h, partsArg) ←
    (match parts with
    | .one p => do
      let pObj ← getObj h p
      match pObj with
      | .part _ => do
        let h ← setMasterPart h p stepOid
        pure (h, [p])
      | .assembly _ _ _ => do
        let h ← setMasterObj fuel h p stepOid
        let stamped ← getObj h p
        let (h, c) := alloc h stamped
        pure (h, [c])
      | .step _ _ _ _ => .error .typeError
    | .many ps =>
      ps.foldlM
        (fun (acc : Heap × List OID) p => do
          let pObj ← getObj acc.1 p
          match pObj with
          | .part _ => do
            let h ← setMasterPart acc.1 p stepOid
            pure (h, acc.2 ++ [p])
          | .assembly _ _ _ => do
            let (h, c) := alloc acc.1 pObj
            let h ← setMasterObj fuel h p stepOid
            pure (h, acc.2 ++ [c])
          | .step _ _ _ _ => .error .typeError)
        (h, []) : Except PyErr (Heap × List OID))
  let (pl, al, ps, ds) ← parseParts h partsArg
  let d : PartData := ⟨name, zipFalse ps, zipFalse ds, none⟩
  pure (h.set stepOid (.step d pl al previous), stepOid)

/-! ## Model -/

/-- Model state: the step sequence and the four registries. -/
structure PyModel where
  name : String
  steps : List OID
  partsReg : List (String × OID)
  assembliesReg : List (String × OID)
  paintsReg : List ((String × PaintType) × Paint)
  decalsReg : List (String × Decal)
  deriving Repr, DecidableEq

/-- Model.__init__. -/
def mkModel (name : String) : PyModel :=
  ⟨name, [], [], [], [], []⟩

/-- Model.nextStep: build a Step whose previous is the current last step,
append it, then fold the step's parts, assemblies, paints and decals into
the registries.  Each registry guard is Python `if entity not in registry:`
where the registry's keys are id strings (parts, assemblies, decals) or
(string, PaintType) tuples (paints) while the probe is a Part/Assembly
object or a Paint/Decal value; such a membership test is always false (the
probe equals none of the keys: the __eq__ methods return NotImplemented
against foreign types and the identity fallback fails), so every guard
passes and the assignment always runs, overwriting any entry already present
under the same key. -/
def nextStep (fuel : Nat) (h : Heap) (m : PyModel) (name : String) (parts : PartsArg) :
    Except PyErr (Heap × PyModel) := do
  let previous := m.steps.getLast?
  let (h, s) ← mkStep fuel h name parts previous
  let m := {m with steps := m.steps ++ [s]}
  let sObj ← getObj h s
  let partsReg ← sObj.membersOf.foldlM
    (fun reg p => do
      let d := (← getObj h p).dataOf
      pure (assocSet reg d.id p))
    m.partsReg
  let assembliesReg ← sObj.assembliesOf.foldlM
    (fun reg a => do
      let d := (← getObj h a).dataOf
      pure (assocSet reg d.id a))
    m.assembliesReg
  let paintsReg := sObj.dataOf.paints.foldl
    (fun reg kv =>
      let key := if kv.1.color.code ≠ "" then (kv.1.color.code, kv.1.ptype)
                 else (kv.1.color.name, kv.1.ptype)
      assocSet reg key kv.1)
    m.paintsReg
  let decalsReg := sObj.dataOf.decals.foldl
    (fun reg kv => assocSet reg kv.1.id kv.1)
    m.decalsReg
  pure (h, { m with partsReg := partsReg, assembliesReg := assembliesReg,
                    paintsReg := paintsReg, decalsReg := decalsReg })

/-- Python list indexing: negative indices count from the end; out of range
raises IndexError. -/
def pyListGet (l : List α) (i : Int) : Except PyErr α :=
  let j := if i < 0 then i + l.length else i
  if 0 ≤ j then
    match l[j.toNat]? with
    | some a => .ok a
    | none => .error .indexError
  else .error .indexError

/-- Linear scan of Model.getStep's string branch: the first step whose id
equals the string, else ValueError. -/
def findStepByName (h : Heap) (oids : List OID) (s : String) : Except PyErr OID :=
  match oids with
  | [] => .error .valueError
  | o :: rest => do
    let d := (← getObj h o).dataOf
    if d.id = s then pure o else findStepByName h rest s

/-- Argument to Model.getStep: an int or a str. -/
inductive StepQuery where
  | byNum (i : Int)
  | byName (s : String)
  deriving Repr, DecidableEq

/-- Model.getStep: an int is used as self._steps[number - 1]; a string is
looked up by scanning for the first step with that id. -/
def getStep (h : Heap) (m : PyModel) (q : StepQuery) : Except PyErr OID :=
  match q with
  | .byNum i => pyListGet m.steps (i - 1)
  | .byName s => findStepByName h m.steps s

/-- Model.__getitem__: native 0-based (and negative) list indexing. -/
def modelGetItem (m : PyModel) (i : Int) : Except PyErr OID :=
  pyListGet m.steps i

/-! ## Heap reasoning helpers -/

@[simp]
theorem exc_bind_ok {α β : Type} (a : α) (f : α → Except PyErr β) :
    (Except.ok a >>= f) = f a := rfl

@[simp]
theorem exc_bind_error {α β : Type} (e : PyErr) (f : α → Except PyErr β) :
    ((Except.error e : Except PyErr α) >>= f) = Except.error e := rfl

@[simp]
theorem exc_pure_eq {α : Type} (a : α) :
    (pure a : Except PyErr α) = Except.ok a := rfl

/-- A successful dereference means the OID is a live index. -/
theorem getObj_ok_some {h : Heap} {oid : OID} {o : Obj} (hg : getObj h oid = .ok o) :
    h[oid]? = some o := by
  unfold getObj at hg
  cases hx : h[oid]? with
  | some o2 => rw [hx] at hg; exact congrArg some (Except.ok.inj hg)
  | none => rw [hx] at hg; cases hg

/-- Updating a live OID makes the new object visible at that OID. -/
theorem getObj_set_self {h : Heap} {oid : OID} {o : Obj} (o2 : Obj)
    (hg : getObj h oid = .ok o) :
    getObj (h.set oid o2) oid = .ok o2 := by
  have hlt : oid < h.length := by
    have := getObj_ok_some hg
    exact (List.getElem?_eq_some.mp this).1
  unfold getObj
  rw [List.getElem?_set_self (by simpa using hlt)]

/-- Updating one OID leaves every other OID unchanged. -/
theorem getObj_set_ne {h : Heap} {oid j : OID} (o2 : Obj) (hne : oid ≠ j) :
    getObj (h.set oid o2) j = getObj h j := by
  unfold getObj
  rw [List.getElem?_set_ne hne]

/-! ## C7: Part.master is write-once -/

/-- C7: on a Part whose master is unset, assigning a Step as master succeeds
and the step becomes visible through the master property; assigning a master
to the same Part a second time raises ValueError. -/
theorem c7_master_write_once (h : Heap) (oid v : OID) (d sd : PartData)
    (pl al : List OID) (pv : Option OID)
    (hobj : getObj h oid = .ok (.part d)) (hm : d.master = none)
    (hv : getObj h v = .ok (.step sd pl al pv)) :
    setMasterPart h oid v = .ok (h.set oid (.part { d with master := some v })) ∧
    getObj (h.set oid (.part { d with master := some v })) oid =
      .ok (.part { d with master := some v }) ∧
    setMasterPart (h.set oid (.part { d with master := some v })) oid v =
      .error .valueError := by
  have hne : v ≠ oid := by
    intro he
    rw [he, hobj] at hv
    cases hv
  have h1 : setMasterPart h oid v = .ok (h.set oid (.part { d with master := some v })) := by
    simp [setMasterPart, hv, hobj, hm, Obj.isStepKind, Obj.dataOf, Obj.withData]
  refine ⟨h1, getObj_set_self _ hobj, ?_⟩
  have hv2 : getObj (h.set oid (.part { d with master := some v })) v = .ok (.step sd pl al pv) := by
    rw [getObj_set_ne _ (fun he => hne he.symm), hv]
  simp [setMasterPart, hv2, getObj_set_self (Obj.part { d with master := some v }) hobj,
    Obj.isStepKind, Obj.dataOf]

/-- Witness for C7 on a two-object heap. -/
theorem c7_witness :
    setMasterPart [Obj.part ⟨"p", [], [], none⟩, Obj.step ⟨"s", [], [], none⟩ [] [] none] 0 1 =
      .ok [Obj.part ⟨"p", [], [], some 1⟩, Obj.step ⟨"s", [], [], none⟩ [] [] none] ∧
    setMasterPart [Obj.part ⟨"p", [], [], some 1⟩, Obj.step ⟨"s", [], [], none⟩ [] [] none] 0 1 =
      .error .valueError := by
  have hmain := c7_master_write_once
    [Obj.part ⟨"p", [], [], none⟩, Obj.step ⟨"s", [], [], none⟩ [] [] none]
    0 1 ⟨"p", [], [], none⟩ ⟨"s", [], [], none⟩ [] [] none rfl rfl rfl
  exact ⟨hmain.1, hmain.2.2⟩

/-! ## Build scenarios

Allocation order fixes the OIDs: part p1 = 0, assembly A = 1, step S1 = 2,
S1's shallow copy of A = 3, the part attached later = 4; a Step built after
the attach = 5 with its copy = 6. -/

/-- Part p1 (with paint pA), Assembly A over it, and a Step S1 built from A;
the Step stamps A and p1 with master = S1 and stores a shallow copy of A. -/
def asmStepScenario (pid aid sid : String) : Except PyErr Heap := do
  let (h1, p1) := mkPart [] pid [pA] []
  let (h2, a) ← mkAssembly h1 aid (.many [p1])
  let (h3, _) ← mkStep 9 h2 sid (.one a) none
  pure h3

/-- The same scenario followed by attaching a fresh part p2 (with paint pB)
to A, which resets A's master. -/
def attachScenario (pid aid sid p2id : String) : Except PyErr Heap := do
  let h ← asmStepScenario pid aid sid
  let (h4, p2) := mkPart h p2id [pB] []
  attach h4 1 (.one p2)

/-- The attach scenario followed by a second Step built from A and one more
attach of a fresh part p3 to A. -/
def c2Final (pid aid sid p2id s2id p3id : String) : Except PyErr Heap := do
  let h ← attachScenario pid aid sid p2id
  let (h5, _) ← mkStep 9 h s2id (.one 1) (some 2)
  let (h6, p3) := mkPart h5 p3id [] []
  attach h6 1 (.one p3)

/-- The member lists observed through a Step: for each object stored in the
Step's _parts slot, that object's own member list. -/
def memberListsVia (h : Heap) (s : OID) : Except PyErr (List (List OID)) := do
  let sObj ← getObj h s
  sObj.membersOf.mapM fun p => do
    let pObj ← getObj h p
    pure pObj.membersOf

/-! ## C2: Steps from a shared Assembly -/

/-- C2 counterexample: constructing a second Step from the same Assembly
instance does not succeed — A's master is still stamped by the first Step
and the stamping pass finds nothing to change, so Step construction raises
ValueError. -/
theorem c2_cex_second_step_construction_fails :
    (asmStepScenario "p" "a" "s1" >>= fun h =>
      (mkStep 9 h "s2" (.one 1) (some 2)).map Prod.fst) = .error .valueError := by
  rfl

/-- C2 amended: a second Step from the same Assembly instance raises
ValueError while the assembly's master is still stamped; after attach resets
the master a second Step can be built.  The member lists observed through
the Steps are independent of the shared source assembly: the Step
constructor copies an Assembly argument (a shallow copy sharing the member
OIDs), and since attach rebinds the assembly's member list instead of
mutating it, attaching to the source changes the view through no existing
Step — the first Step keeps seeing [p1] and the second [p1, p2]. -/
theorem c2_step_copy_attach_independence :
    (asmStepScenario "p" "a" "s1" >>= fun h => memberListsVia h 2) = .ok [[0]] ∧
    (asmStepScenario "p" "a" "s1" >>= fun h =>
      (mkStep 9 h "s2" (.one 1) (some 2)).map Prod.fst) = .error .valueError ∧
    (attachScenario "p" "a" "s1" "q" >>= fun h => memberListsVia h 2) = .ok [[0]] ∧
    ((attachScenario "p" "a" "s1" "q" >>= fun h =>
        (mkStep 9 h "s2" (.one 1) (some 2)).map Prod.fst) >>= fun h =>
      memberListsVia h 5) = .ok [[0, 4]] ∧
    (c2Final "p" "a" "s1" "q" "s2" "r" >>= fun h => memberListsVia h 2) = .ok [[0]] ∧
    (c2Final "p" "a" "s1" "q" "s2" "r" >>= fun h => memberListsVia h 5) = .ok [[0, 4]] := by
  exact ⟨rfl, rfl, rfl, rfl, rfl, rfl⟩

/-! ## C4: attach resets master, reassignment restamps, redundancy raises -/

/-! ## C1: nextStep registry folding -/

/-- Two nextStep calls, each introducing a fresh Part with the same id "a"
and the same paint key: part 0 in step 1, then part 2 in step 3. -/
def c1Run : Except PyErr (Heap × PyModel × PyModel) := do
  let m0 := mkModel "m"
  let (h1, p1) := mkPart [] "a" [pA] []
  let (h2, m1) ← nextStep 9 h1 m0 "s1" (.many [p1])
  let (h3, p2) := mkPart h2 "a" [pA] []
  let (h4, m2) ← nextStep 9 h3 m1 "s2" (.many [p2])
  pure (h4, m1, m2)

/-- C1 at the failing input: after the first nextStep the parts registry
maps "a" to the first Part (OID 0); after the second nextStep it maps "a" to
the second, distinct but equal-by-value Part (OID 2) — the guard
`part not in self._parts` probes the Part object against the registry's
string keys and never fires, so the entry is overwritten instead of kept. -/
theorem c1_registry_overwritten_not_first_seen :
    (c1Run.map fun r => r.2.1.partsReg) = .ok [("a", 0)] ∧
    (c1Run.map fun r => r.2.2.partsReg) = .ok [("a", 2)] ∧
    (c1Run.map fun r => (getObj r.1 0).map fun o =>
        (o.dataOf.id, o.dataOf.paints, o.dataOf.decals)) =
      (c1Run.map fun r => (getObj r.1 2).map fun o =>
        (o.dataOf.id, o.dataOf.paints, o.dataOf.decals)) := by
  exact ⟨rfl, rfl, rfl⟩

/-! ## C6: getStep and the dual indexing conventions -/

/-- A model with two steps: part "x" (OID 0) in step "s1" (OID 1), part "y"
(OID 2) in step "s2" (OID 3). -/
def c6Run : Except PyErr (Heap × PyModel) := do
  let m0 := mkModel "m"
  let (h1, p1) := mkPart [] "x" [] []
  let (h2, m1) ← nextStep 9 h1 m0 "s1" (.many [p1])
  let (h3, p2) := mkPart h2 "y" [] []
  nextStep 9 h3 m1 "s2" (.many [p2])

/-- C6 counterexample: on a two-step model, getStep(0) — an out-of-range
1-based step number — does not raise an index error: Python negative
indexing makes self._steps[-1] return the LAST step (OID 3, not the first
step OID 1). -/
theorem c6_cex_getStep_zero_returns_last :
    (c6Run.map fun r => r.2.steps) = .ok [1, 3] ∧
    (c6Run >>= fun r => getStep r.1 r.2 (.byNum 0)) = .ok 3 := by
  exact ⟨rfl, rfl⟩

/-- The ids of a list of steps, resolved through the heap. -/
def resolveIds (h : Heap) : List OID → Except PyErr (List String)
  | [] => .ok []
  | o :: rest => do
    let obj ← getObj h o
    let ids ← resolveIds h rest
    pure (obj.dataOf.id :: ids)

/-- Index of the first occurrence of a string in a list of ids. -/
def firstMatch (ids : List String) (s : String) : Option Nat :=
  match ids with
  | [] => none
  | x :: rest => if x = s then some 0 else (firstMatch rest s).map (· + 1)

/-- The string scan returns the step at the index of the first matching id,
and ValueError when no id matches. -/
theorem findStepByName_spec (h : Heap) (s : String) :
    ∀ (l : List OID) (ids : List String), resolveIds h l = .ok ids →
      (firstMatch ids s = none → findStepByName h l s = .error .valueError) ∧
      (∀ i, firstMatch ids s = some i →
        ∃ o, l[i]? = some o ∧ findStepByName h l s = .ok o) := by
  intro l
  induction l with
  | nil =>
    intro ids hres
    simp only [resolveIds] at hres
    cases hres
    exact ⟨fun _ => rfl, fun i hi => by cases hi⟩
  | cons o rest ih =>
    intro ids hres
    simp only [resolveIds] at hres
    cases hg : getObj h o with
    | error e => rw [hg] at hres; simp at hres
    | ok obj =>
      rw [hg] at hres
      rw [exc_bind_ok] at hres
      cases hr : resolveIds h rest with
      | error e => rw [hr] at hres; simp at hres
      | ok ids2 =>
        rw [hr] at hres
        rw [exc_bind_ok] at hres
        have hids : ids = obj.dataOf.id :: ids2 := (Except.ok.inj hres).symm
        subst hids
        by_cases hid : obj.dataOf.id = s
        · have hfm : firstMatch (obj.dataOf.id :: ids2) s = some 0 := by
            simp [firstMatch, hid]
          constructor
          · intro hnone
            rw [hfm] at hnone
            cases hnone
          · intro i hi
            rw [hfm] at hi
            cases hi
            exact ⟨o, by simp, by simp [findStepByName, hg, hid]⟩
        · have hfm : firstMatch (obj.dataOf.id :: ids2) s = (firstMatch ids2 s).map (· + 1) := by
            simp [firstMatch, hid]
          have hunf : findStepByName h (o :: rest) s = findStepByName h rest s := by
            simp [findStepByName, hg, hid]
          constructor
          · intro hnone
            rw [hfm, Option.map_eq_none'] at hnone
            rw [hunf]
            exact (ih ids2 hr).1 hnone
          · intro i hi
            rw [hfm, Option.map_eq_some'] at hi
            obtain ⟨j, hj, hij⟩ := hi
            obtain ⟨o2, ho2, hfind⟩ := (ih ids2 hr).2 j hj
            refine ⟨o2, ?_, by rw [hunf]; exact hfind⟩
            rw [← hij]
            simpa using ho2

/-- C6 amended: getStep treats an integer as a 1-based step number realised
by Python list indexing at number − 1: getStep(1) returns the first step and
agrees with model[0] under native 0-based indexing; numbers above the step
count raise an index error, as do numbers whose translated negative index
falls below the range; but numbers in [-count+1, 0] hit Python negative
indexing instead of erroring — getStep(0) returns the LAST step.  A string
argument returns the first step whose id equals the string and raises
ValueError when none matches. -/
theorem c6_getStep_dual_indexing :
    (∀ (h : Heap) (m : PyModel) (s : OID) (rest : List OID), m.steps = s :: rest →
      getStep h m (.byNum 1) = .ok s ∧ modelGetItem m 0 = .ok s) ∧
    (∀ (h : Heap) (m : PyModel) (i : Int), (m.steps.length : Int) < i →
      getStep h m (.byNum i) = .error .indexError) ∧
    (∀ (h : Heap) (m : PyModel) (i : Int), i + (m.steps.length : Int) < 1 →
      getStep h m (.byNum i) = .error .indexError) ∧
    (∀ (h : Heap) (m : PyModel) (s : OID), m.steps.getLast? = some s →
      getStep h m (.byNum 0) = .ok s) ∧
    (∀ (h : Heap) (m : PyModel) (s : String) (ids : List String),
      resolveIds h m.steps = .ok ids → firstMatch ids s = none →
      getStep h m (.byName s) = .error .valueError) ∧
    (∀ (h : Heap) (m : PyModel) (s : String) (ids : List String) (i : Nat),
      resolveIds h m.steps = .ok ids → firstMatch ids s = some i →
      ∃ o, m.steps[i]? = some o ∧ getStep h m (.byName s) = .ok o) := by
  refine ⟨?_, ?_, ?_, ?_, ?_, ?_⟩
  · intro h m s rest hm
    constructor
    · simp [getStep, pyListGet, hm]
    · simp [modelGetItem, pyListGet, hm]
  · intro h m i hi
    have h1 : ¬ i - 1 < 0 := by omega
    have h3 : m.steps[(i - 1).toNat]? = none := List.getElem?_eq_none (by omega)
    simp only [getStep, pyListGet]
    rw [if_neg h1, if_pos (by omega : (0 : Int) ≤ i - 1), h3]
  · intro h m i hi
    have h1 : i - 1 < 0 := by omega
    have h2 : ¬ (0 : Int) ≤ i - 1 + m.steps.length := by omega
    simp [getStep, pyListGet, h1, h2]
  · intro h m s hs
    have hne : m.steps ≠ [] := by
      intro he
      rw [he] at hs
      cases hs
    have hpos : 0 < m.steps.length := List.length_pos.mpr hne
    have h1 : (0 : Int) - 1 < 0 := by omega
    have h2 : (0 : Int) ≤ 0 - 1 + m.steps.length := by omega
    have h3 : ((0 : Int) - 1 + m.steps.length).toNat = m.steps.length - 1 := by omega
    have h4 : m.steps[m.steps.length - 1]? = some s := by
      rw [← List.getLast?_eq_getElem?]
      exact hs
    simp only [getStep, pyListGet]
    rw [if_pos h1, if_pos h2, h3, h4]
  · intro h m s ids hres hnone
    exact (findStepByName_spec h s m.steps ids hres).1 hnone
  · intro h m s ids i hres hsome
    exact (findStepByName_spec h s m.steps ids hres).2 i hsome

/-- Witness for C6's amended theorem on a concrete two-step model. -/
theorem c6_witness :
    getStep [Obj.step ⟨"s1", [], [], none⟩ [] [] none, Obj.step ⟨"s2", [], [], none⟩ [] [] none]
      ⟨"m", [0, 1], [], [], [], []⟩ (.byNum 1) = .ok 0 ∧
    getStep [Obj.step ⟨"s1", [], [], none⟩ [] [] none, Obj.step ⟨"s2", [], [], none⟩ [] [] none]
      ⟨"m", [0, 1], [], [], [], []⟩ (.byNum 5) = .error .indexError ∧
    getStep [Obj.step ⟨"s1", [], [], none⟩ [] [] none, Obj.step ⟨"s2", [], [], none⟩ [] [] none]
      ⟨"m", [0, 1], [], [], [], []⟩ (.byNum (-2)) = .error .indexError ∧
    getStep [Obj.step ⟨"s1", [], [], none⟩ [] [] none, Obj.step ⟨"s2", [], [], none⟩ [] [] none]
      ⟨"m", [0, 1], [], [], [], []⟩ (.byNum 0) = .ok 1 ∧
    getStep [Obj.step ⟨"s1", [], [], none⟩ [] [] none, Obj.step ⟨"s2", [], [], none⟩ [] [] none]
      ⟨"m", [0, 1], [], [], [], []⟩ (.byName "zz") = .error .valueError := by
  refine ⟨(c6_getStep_dual_indexing.1 _ _ 0 [1] rfl).1,
    c6_getStep_dual_indexing.2.1 _ _ 5 (by decide),
    c6_getStep_dual_indexing.2.2.1 _ _ (-2) (by decide),
    c6_getStep_dual_indexing.2.2.2.1 _ _ 1 rfl,
    c6_getStep_dual_indexing.2.2.2.2.1 _ _ "zz" ["s1", "s2"] (by decide) (by decide)⟩

/-! ## Universal lemmas about the Assembly master setter and attach -/

/-- The master slot visible at an OID. -/
def masterAt (h : Heap) (oid : OID) : Except PyErr (Option OID) :=
  (getObj h oid).map fun o => o.dataOf.master

/-- The member-stamping pass of Assembly's master setter over bare-Part
members: it never fails, keeps the changed flag once set, leaves every
position outside the member list untouched, and sets the master of exactly
those members whose master was unset. -/
theorem stampFold_parts (v : OID) (sd : PartData) (spl sal : List OID) (spv : Option OID)
    (fl : Nat) :
    ∀ (ms : List OID) (g : Heap),
      (∀ m ∈ ms, ∃ dm, getObj g m = .ok (.part dm)) →
      getObj g v = .ok (.step sd spl sal spv) →
      ∃ g2,
        (List.foldlM
          (fun (acc : Heap × Bool) p => do
            let pObj ← getObj acc.1 p
            if pObj.dataOf.master = none then do
              let h2 ← setMasterObj (fl + 1) acc.1 p v
              pure (h2, true)
            else pure acc)
          (g, true) ms) = .ok (g2, true) ∧
        (∀ j, j ∉ ms → getObj g2 j = getObj g j) ∧
        (∀ m ∈ ms, ∃ dm0 dm2, getObj g m = .ok (.part dm0) ∧ getObj g2 m = .ok (.part dm2) ∧
          dm2 = { dm0 with master := some (dm0.master.getD v) }) := by
  intro ms
  induction ms with
  | nil =>
    intro g hms hv
    refine ⟨g, rfl, fun j _ => rfl, fun m hm => absurd hm (List.not_mem_nil m)⟩
  | cons m rest ih =>
    intro g hms hv
    obtain ⟨dm, hdm⟩ := hms m (List.mem_cons_self m rest)
    have hvm : v ≠ m := by
      intro he
      rw [he, hdm] at hv
      cases hv
    cases hm0 : dm.master with
    | none =>
      have hstep : setMasterObj (fl + 1) g m v =
          .ok (g.set m (.part { dm with master := some v })) := by
        simp [setMasterObj, hdm, setMasterPart, hv, hm0, Obj.isStepKind, Obj.dataOf, Obj.withData]
      have hhead : (do
          let pObj ← getObj ((g, true) : Heap × Bool).1 m
          if pObj.dataOf.master = none then do
            let h2 ← setMasterObj (fl + 1) ((g, true) : Heap × Bool).1 m v
            pure (h2, true)
          else pure ((g, true) : Heap × Bool)) =
          Except.ok (g.set m (.part { dm with master := some v }), true) := by
        show (do
          let pObj ← getObj g m
          if pObj.dataOf.master = none then do
            let h2 ← setMasterObj (fl + 1) g m v
            pure (h2, true)
          else pure ((g, true) : Heap × Bool)) =
          Except.ok (g.set m (.part { dm with master := some v }), true)
        rw [hdm, exc_bind_ok]
        simp only [Obj.dataOf]
        rw [if_pos hm0, hstep, exc_bind_ok, exc_pure_eq]
      have hrest : ∀ m2 ∈ rest,
          ∃ d2, getObj (g.set m (.part { dm with master := some v })) m2 = .ok (.part d2) := by
        intro m2 hm2
        by_cases he : m = m2
        · exact ⟨{ dm with master := some v }, he ▸ getObj_set_self _ hdm⟩
        · obtain ⟨d2, hd2⟩ := hms m2 (List.mem_cons_of_mem m hm2)
          exact ⟨d2, (getObj_set_ne _ he).trans hd2⟩
      have hv2 : getObj (g.set m (.part { dm with master := some v })) v =
          .ok (.step sd spl sal spv) := by
        rw [getObj_set_ne _ (fun he => hvm he.symm), hv]
      obtain ⟨g2, hfold, hout, hmem⟩ := ih (g.set m (.part { dm with master := some v })) hrest hv2
      refine ⟨g2, ?_, ?_, ?_⟩
      · rw [List.foldlM_cons]
        rw [hhead, exc_bind_ok]
        exact hfold
      · intro j hj
        have hj1 : j ∉ rest := fun hc => hj (List.mem_cons_of_mem m hc)
        have hj2 : m ≠ j := fun hc => hj (hc ▸ List.mem_cons_self m rest)
        rw [hout j hj1, getObj_set_ne _ hj2]
      · intro m2 hm2
        rcases List.mem_cons.mp hm2 with he | hm2r
        · subst he
          by_cases hmr : m2 ∈ rest
          · obtain ⟨d0, d2, hd0, hd2, hrel⟩ := hmem m2 hmr
            have hd0e : d0 = { dm with master := some v } := by
              have hcmp := (getObj_set_self (Obj.part { dm with master := some v }) hdm).symm.trans hd0
              exact (Obj.part.inj (Except.ok.inj hcmp)).symm
            refine ⟨dm, d2, hdm, hd2, ?_⟩
            rw [hrel, hd0e, hm0]
            rfl
          · have hsame := hout m2 hmr
            refine ⟨dm, { dm with master := some v }, hdm, ?_, by rw [hm0]; rfl⟩
            rw [hsame]
            exact getObj_set_self _ hdm
        · obtain ⟨d0, d2, hd0, hd2, hrel⟩ := hmem m2 hm2r
          by_cases he : m = m2
          · have hset : getObj (g.set m (.part { dm with master := some v })) m2 =
                .ok (.part { dm with master := some v }) :=
              he ▸ getObj_set_self (Obj.part { dm with master := some v }) hdm
            have hd0e : d0 = { dm with master := some v } :=
              (Obj.part.inj (Except.ok.inj (hset.symm.trans hd0))).symm
            refine ⟨dm, d2, he ▸ hdm, hd2, ?_⟩
            rw [hrel, hd0e, hm0]
            rfl
          · have hd0g : getObj g m2 = .ok (.part d0) := by
              rw [← hd0, getObj_set_ne _ he]
            exact ⟨d0, d2, hd0g, hd2, hrel⟩
    | some x =>
      have hnostep : (do
          let pObj ← getObj ((g, true) : Heap × Bool).1 m
          if pObj.dataOf.master = none then do
            let h2 ← setMasterObj (fl + 1) ((g, true) : Heap × Bool).1 m v
            pure (h2, true)
          else pure ((g, true) : Heap × Bool)) = Except.ok (g, true) := by
        show (do
          let pObj ← getObj g m
          if pObj.dataOf.master = none then do
            let h2 ← setMasterObj (fl + 1) g m v
            pure (h2, true)
          else pure ((g, true) : Heap × Bool)) = Except.ok (g, true)
        rw [hdm, exc_bind_ok]
        simp only [Obj.dataOf]
        rw [if_neg (by simp [hm0])]
        rfl
      obtain ⟨g2, hfold, hout, hmem⟩ := ih g (fun m2 hm2 => hms m2 (List.mem_cons_of_mem m hm2)) hv
      refine ⟨g2, ?_, ?_, ?_⟩
      · rw [List.foldlM_cons]
        rw [hnostep, exc_bind_ok]
        exact hfold
      · intro j hj
        exact hout j (fun hc => hj (List.mem_cons_of_mem m hc))
      · intro m2 hm2
        rcases List.mem_cons.mp hm2 with he | hm2r
        · subst he
          by_cases hmr : m2 ∈ rest
          · exact hmem m2 hmr
          · refine ⟨dm, dm, hdm, by rw [hout m2 hmr]; exact hdm, ?_⟩
            obtain ⟨i, p, dcs, mst⟩ := dm
            simp only at hm0
            rw [hm0]
            rfl
        · exact hmem m2 hm2r

/-- The stamping pass when every member's master is already set: the heap
and the unchanged flag pass through untouched. -/
theorem skipFold_stamped (v : OID) (fl : Nat) :
    ∀ (ms : List OID) (g : Heap),
      (∀ m ∈ ms, ∃ o, getObj g m = .ok o ∧ o.dataOf.master ≠ none) →
      (List.foldlM
        (fun (acc : Heap × Bool) p => do
          let pObj ← getObj acc.1 p
          if pObj.dataOf.master = none then do
            let h2 ← setMasterObj fl acc.1 p v
            pure (h2, true)
          else pure acc)
        (g, false) ms) = .ok (g, false) := by
  intro ms
  induction ms with
  | nil => intro g hms; rfl
  | cons m rest ih =>
    intro g hms
    obtain ⟨o, ho, hmast⟩ := hms m (List.mem_cons_self m rest)
    have hhead : (do
        let pObj ← getObj ((g, false) : Heap × Bool).1 m
        if pObj.dataOf.master = none then do
          let h2 ← setMasterObj fl ((g, false) : Heap × Bool).1 m v
          pure (h2, true)
        else pure ((g, false) : Heap × Bool)) = Except.ok (g, false) := by
      show (do
        let pObj ← getObj g m
        if pObj.dataOf.master = none then do
          let h2 ← setMasterObj fl g m v
          pure (h2, true)
        else pure ((g, false) : Heap × Bool)) = Except.ok (g, false)
      rw [ho, exc_bind_ok, if_neg hmast]
      rfl
    rw [List.foldlM_cons, hhead, exc_bind_ok]
    exact ih g (fun m2 hm2 => hms m2 (List.mem_cons_of_mem m hm2))

/-- One-step unfolding of the Assembly master setter on an assembly object
with a Step value: the assembly is stamped when unset, then the member pass
runs, and ValueError is raised when nothing changed. -/
theorem setMasterObj_asm_eq (fuel : Nat) (h : Heap) (oid v : OID) (d : PartData)
    (pl al : List OID) (sd : PartData) (spl sal : List OID) (spv : Option OID)
    (hobj : getObj h oid = .ok (.assembly d pl al))
    (hv : getObj h v = .ok (.step sd spl sal spv)) :
    setMasterObj (fuel + 1) h oid v = (do
      let res ← List.foldlM
        (fun (acc : Heap × Bool) p => do
          let pObj ← getObj acc.1 p
          if pObj.dataOf.master = none then do
            let h2 ← setMasterObj fuel acc.1 p v
            pure (h2, true)
          else pure acc)
        (if d.master = none
          then (h.set oid (.assembly { d with master := some v } pl al), true)
          else (h, false)) pl
      if res.2 = true then pure res.1 else .error .valueError) := by
  rw [setMasterObj, hobj]
  rw [exc_bind_ok]
  rw [hv]
  rfl

/-- Assembly.attach always leaves the assembly's master unset when it
returns successfully. -/
theorem attach_resets_master (h : Heap) (aOid : OID) (d : PartData) (pl al : List OID)
    (parts : PartsArg) (h2 : Heap)
    (hobj : getObj h aOid = .ok (.assembly d pl al))
    (hatt : attach h aOid parts = .ok h2) :
    masterAt h2 aOid = .ok none := by
  simp only [attach, hobj, exc_bind_ok, Obj.withData, Obj.dataOf] at hatt
  cases hn : normalizeArg (h.set aOid (.assembly { d with master := none } pl al)) parts with
  | error e => rw [hn, exc_bind_error] at hatt; cases hatt
  | ok lst =>
    rw [hn, exc_bind_ok] at hatt
    cases hp : parseParts (h.set aOid (.assembly { d with master := none } pl al)) lst with
    | error e => rw [hp, exc_bind_error] at hatt; cases hatt
    | ok t =>
      obtain ⟨pl2, al2, ps, ds⟩ := t
      rw [hp, exc_bind_ok] at hatt
      have hx := Except.ok.inj hatt
      subst hx
      have hmid := getObj_set_self (Obj.assembly { d with master := none } pl al) hobj
      rw [masterAt, getObj_set_self _ hmid]
      rfl

/-- Assigning a master to an assembly whose own master is unset and whose
direct members are bare Parts always succeeds: the assembly is stamped and
each member whose master was unset is stamped, while members whose master
was already set keep it. -/
theorem setMaster_on_reset (fl : Nat) (h : Heap) (aOid v : OID) (d : PartData)
    (pl al : List OID) (sd : PartData) (spl sal : List OID) (spv : Option OID)
    (hobj : getObj h aOid = .ok (.assembly d pl al))
    (hm : d.master = none)
    (hv : getObj h v = .ok (.step sd spl sal spv))
    (hms : ∀ m ∈ pl, ∃ dm, getObj h m = .ok (.part dm)) :
    ∃ h2, setMasterObj (fl + 1 + 1) h aOid v = .ok h2 ∧
      masterAt h2 aOid = .ok (some v) ∧
      (∀ m ∈ pl, ∃ dm0 dm2, getObj h m = .ok (.part dm0) ∧ getObj h2 m = .ok (.part dm2) ∧
        dm2 = { dm0 with master := some (dm0.master.getD v) }) := by
  have haep : ∀ m ∈ pl, m ≠ aOid := by
    intro m hmp he
    obtain ⟨dm, hdm⟩ := hms m hmp
    rw [he, hobj] at hdm
    cases hdm
  have hva : v ≠ aOid := by
    intro he
    rw [he, hobj] at hv
    cases hv
  have hms1 : ∀ m ∈ pl,
      ∃ dm, getObj (h.set aOid (.assembly { d with master := some v } pl al)) m = .ok (.part dm) := by
    intro m hmp
    obtain ⟨dm, hdm⟩ := hms m hmp
    exact ⟨dm, by rw [getObj_set_ne _ (Ne.symm (haep m hmp))]; exact hdm⟩
  have hv1 : getObj (h.set aOid (.assembly { d with master := some v } pl al)) v =
      .ok (.step sd spl sal spv) := by
    rw [getObj_set_ne _ (Ne.symm hva)]
    exact hv
  obtain ⟨g2, hfold, hout, hmem⟩ := stampFold_parts v sd spl sal spv fl pl
    (h.set aOid (.assembly { d with master := some v } pl al)) hms1 hv1
  have hana : aOid ∉ pl := fun hc => (haep aOid hc) rfl
  refine ⟨g2, ?_, ?_, ?_⟩
  · rw [setMasterObj_asm_eq (fl + 1) h aOid v d pl al sd spl sal spv hobj hv]
    rw [if_pos hm]
    rw [hfold, exc_bind_ok]
    rfl
  · rw [masterAt, hout aOid hana, getObj_set_self _ hobj]
    rfl
  · intro m hmp
    obtain ⟨dm0, dm2, hd0, hd2, hrel⟩ := hmem m hmp
    refine ⟨dm0, dm2, ?_, hd2, hrel⟩
    rw [← hd0, getObj_set_ne _ (Ne.symm (haep m hmp))]

/-- Assigning a master to an assembly whose own master is already set and
all of whose direct members already have masters raises ValueError. -/
theorem setMaster_nothing_to_stamp (fl : Nat) (h : Heap) (aOid v : OID) (d : PartData)
    (pl al : List OID) (sd : PartData) (spl sal : List OID) (spv : Option OID)
    (hobj : getObj h aOid = .ok (.assembly d pl al))
    (hm : d.master ≠ none)
    (hv : getObj h v = .ok (.step sd spl sal spv))
    (hms : ∀ m ∈ pl, ∃ o, getObj h m = .ok o ∧ o.dataOf.master ≠ none) :
    setMasterObj (fl + 1) h aOid v = .error .valueError := by
  rw [setMasterObj_asm_eq fl h aOid v d pl al sd spl sal spv hobj hv]
  rw [if_neg hm]
  rw [skipFold_stamped v fl pl h hms, exc_bind_ok]
  rfl


/-! ## C4: attach resets master; reassignment restamps; redundancy raises -/

/-- C4: attach on an assembly resets its master to unset — shown universally
and on the scenario where the assembly was stamped by Step S1; re-assigning
master = S1 then succeeds, restamping the assembly and every member whose
master is unset (the freshly attached p2) while leaving already-stamped
members untouched (p1 keeps S1); an identical second assignment with
nothing left to stamp raises ValueError.  The universal statements cover any
heap, any assembly with bare-Part members, any Step value and any fuel. -/
theorem c4_attach_then_restamp_then_state_error :
    (attachScenario "p" "a" "s1" "q" >>= fun h =>
      (getObj h 1).map fun o => o.dataOf.master) = .ok none ∧
    ((attachScenario "p" "a" "s1" "q" >>= fun h => setMasterObj 9 h 1 2) >>= fun h =>
      (getObj h 1).map fun o => o.dataOf.master) = .ok (some 2) ∧
    ((attachScenario "p" "a" "s1" "q" >>= fun h => setMasterObj 9 h 1 2) >>= fun h =>
      (getObj h 4).map fun o => o.dataOf.master) = .ok (some 2) ∧
    ((attachScenario "p" "a" "s1" "q" >>= fun h => setMasterObj 9 h 1 2) >>= fun h =>
      (getObj h 0).map fun o => o.dataOf.master) = .ok (some 2) ∧
    ((attachScenario "p" "a" "s1" "q" >>= fun h => setMasterObj 9 h 1 2) >>= fun h =>
      setMasterObj 9 h 1 2) = .error .valueError ∧
    (∀ (h : Heap) (aOid : OID) (d : PartData) (pl al : List OID) (parts : PartsArg) (h2 : Heap),
      getObj h aOid = .ok (.assembly d pl al) → attach h aOid parts = .ok h2 →
      masterAt h2 aOid = .ok none) ∧
    (∀ (fl : Nat) (h : Heap) (aOid v : OID) (d sd : PartData) (pl al spl sal : List OID)
        (spv : Option OID),
      getObj h aOid = .ok (.assembly d pl al) → d.master = none →
      getObj h v = .ok (.step sd spl sal spv) →
      (∀ m ∈ pl, ∃ dm, getObj h m = .ok (.part dm)) →
      ∃ h2, setMasterObj (fl + 1 + 1) h aOid v = .ok h2 ∧
        masterAt h2 aOid = .ok (some v) ∧
        (∀ m ∈ pl, ∃ dm0 dm2, getObj h m = .ok (.part dm0) ∧ getObj h2 m = .ok (.part dm2) ∧
          dm2 = { dm0 with master := some (dm0.master.getD v) })) ∧
    (∀ (fl : Nat) (h : Heap) (aOid v : OID) (d sd : PartData) (pl al spl sal : List OID)
        (spv : Option OID),
      getObj h aOid = .ok (.assembly d pl al) → d.master ≠ none →
      getObj h v = .ok (.step sd spl sal spv) →
      (∀ m ∈ pl, ∃ o, getObj h m = .ok o ∧ o.dataOf.master ≠ none) →
      setMasterObj (fl + 1) h aOid v = .error .valueError) := by
  refine ⟨rfl, rfl, rfl, rfl, rfl, ?_, ?_, ?_⟩
  · intro h aOid d pl al parts h2 hobj hatt
    exact attach_resets_master h aOid d pl al parts h2 hobj hatt
  · intro fl h aOid v d sd pl al spl sal spv hobj hm hv hms
    exact setMaster_on_reset fl h aOid v d pl al sd spl sal spv hobj hm hv hms
  · intro fl h aOid v d sd pl al spl sal spv hobj hm hv hms
    exact setMaster_nothing_to_stamp fl h aOid v d pl al sd spl sal spv hobj hm hv hms

/-- Witness for C4's universal conjuncts on small concrete heaps. -/
theorem c4_witness :
    masterAt [Obj.assembly ⟨"a", [], [], none⟩ [] [], Obj.step ⟨"s", [], [], none⟩ [] [] none] 0 =
      .ok none ∧
    (setMasterObj (0 + 1 + 1)
        [Obj.assembly ⟨"a", [], [], none⟩ [2] [], Obj.step ⟨"s", [], [], none⟩ [] [] none,
          Obj.part ⟨"p", [], [], none⟩] 0 1).map (fun hh => masterAt hh 0) = .ok (.ok (some 1)) ∧
    setMasterObj (0 + 1)
        [Obj.assembly ⟨"a", [], [], some 1⟩ [2] [], Obj.step ⟨"s", [], [], none⟩ [] [] none,
          Obj.part ⟨"p", [], [], some 1⟩] 0 1 = .error .valueError := by
  refine ⟨?_, ?_, ?_⟩
  · exact c4_attach_then_restamp_then_state_error.2.2.2.2.2.1
      [Obj.assembly ⟨"a", [], [], some 1⟩ [] [], Obj.step ⟨"s", [], [], none⟩ [] [] none] 0
      ⟨"a", [], [], some 1⟩ [] [] (.many [])
      [Obj.assembly ⟨"a", [], [], none⟩ [] [], Obj.step ⟨"s", [], [], none⟩ [] [] none]
      (by decide) (by decide)
  · obtain ⟨h2, he, hma, hmm⟩ := c4_attach_then_restamp_then_state_error.2.2.2.2.2.2.1 0
      [Obj.assembly ⟨"a", [], [], none⟩ [2] [], Obj.step ⟨"s", [], [], none⟩ [] [] none,
        Obj.part ⟨"p", [], [], none⟩] 0 1 ⟨"a", [], [], none⟩ ⟨"s", [], [], none⟩ [2] [] [] []
      none (by decide) (by decide) (by decide)
      (by
        intro m hm
        rw [List.mem_singleton] at hm
        subst hm
        exact ⟨⟨"p", [], [], none⟩, rfl⟩)
    rw [he]
    show Except.ok (masterAt h2 0) = .ok (.ok (some 1))
    rw [hma]
  · exact c4_attach_then_restamp_then_state_error.2.2.2.2.2.2.2 0
      [Obj.assembly ⟨"a", [], [], some 1⟩ [2] [], Obj.step ⟨"s", [], [], none⟩ [] [] none,
        Obj.part ⟨"p", [], [], some 1⟩] 0 1 ⟨"a", [], [], some 1⟩ ⟨"s", [], [], none⟩ [2] [] [] []
      none (by decide) (by decide) (by decide)
      (by
        intro m hm
        rw [List.mem_singleton] at hm
        subst hm
        exact ⟨Obj.part ⟨"p", [], [], some 1⟩, rfl, by decide⟩)
